import Mathlib

open Matrix

/-!
Verification of the internal-coordinate geometry engine of the `pts`
repository (files `coord_sys.py` and `metric.py`) against its
natural-language specification.

The development is a shallow embedding: machine floating-point numbers are
modelled as real numbers (`ℝ`), numpy arrays as lists / `Matrix` values over
`ℝ`, Python exceptions as `Option` / `Except` results.  Each definition is
translated from the Python source; where a helper lives in a module that is
not part of the sources (`common.py`, `func.py`), the definition is marked
`Modelled from the spec:` and follows the specification's words.
-/

/- ------------------------------------------------------------------ -/
/- 3-vectors.  numpy length-3 arrays (rows of an (N,3) geometry array). -/
/- ------------------------------------------------------------------ -/

/-- A Cartesian 3-vector, the model of a numpy array of shape (3,). -/
structure V3 where
  x : ℝ
  y : ℝ
  z : ℝ

namespace V3

@[ext]
theorem ext' {a b : V3} (hx : a.x = b.x) (hy : a.y = b.y) (hz : a.z = b.z) :
    a = b := by
  cases a; cases b; simp_all

instance : Zero V3 := ⟨⟨0, 0, 0⟩⟩

instance : Add V3 := ⟨fun a b => ⟨a.x + b.x, a.y + b.y, a.z + b.z⟩⟩

instance : Neg V3 := ⟨fun a => ⟨-a.x, -a.y, -a.z⟩⟩

instance : Sub V3 := ⟨fun a b => ⟨a.x - b.x, a.y - b.y, a.z - b.z⟩⟩

instance : SMul ℝ V3 := ⟨fun r a => ⟨r * a.x, r * a.y, r * a.z⟩⟩

@[simp] theorem zero_x : (0 : V3).x = 0 := rfl
@[simp] theorem zero_y : (0 : V3).y = 0 := rfl
@[simp] theorem zero_z : (0 : V3).z = 0 := rfl
@[simp] theorem add_x (a b : V3) : (a + b).x = a.x + b.x := rfl
@[simp] theorem add_y (a b : V3) : (a + b).y = a.y + b.y := rfl
@[simp] theorem add_z (a b : V3) : (a + b).z = a.z + b.z := rfl
@[simp] theorem neg_x (a : V3) : (-a).x = -a.x := rfl
@[simp] theorem neg_y (a : V3) : (-a).y = -a.y := rfl
@[simp] theorem neg_z (a : V3) : (-a).z = -a.z := rfl
@[simp] theorem sub_x (a b : V3) : (a - b).x = a.x - b.x := rfl
@[simp] theorem sub_y (a b : V3) : (a - b).y = a.y - b.y := rfl
@[simp] theorem sub_z (a b : V3) : (a - b).z = a.z - b.z := rfl
@[simp] theorem smul_x (r : ℝ) (a : V3) : (r • a).x = r * a.x := rfl
@[simp] theorem smul_y (r : ℝ) (a : V3) : (r • a).y = r * a.y := rfl
@[simp] theorem smul_z (r : ℝ) (a : V3) : (r • a).z = r * a.z := rfl

instance : AddCommGroup V3 where
  add_assoc a b c := by ext <;> simp <;> ring
  zero_add a := by ext <;> simp
  add_zero a := by ext <;> simp
  add_comm a b := by ext <;> simp <;> ring
  neg_add_cancel a := by ext <;> simp
  sub_eq_add_neg a b := by ext <;> simp <;> ring
  nsmul := nsmulRec
  zsmul := zsmulRec

instance : Module ℝ V3 where
  one_smul a := by ext <;> simp
  mul_smul r s a := by ext <;> simp <;> ring
  smul_zero r := by ext <;> simp
  zero_smul a := by ext <;> simp
  smul_add r a b := by ext <;> simp <;> ring
  add_smul r s a := by ext <;> simp <;> ring

end V3

/-- Dot product of two 3-vectors (numpy.dot on length-3 arrays). -/
noncomputable def V3.dot (a b : V3) : ℝ := a.x * b.x + a.y * b.y + a.z * b.z

/-- Cross product of two 3-vectors (numpy.cross, `coord_sys.py` lines 362-363). -/
noncomputable def cross (a b : V3) : V3 :=
  ⟨a.y * b.z - a.z * b.y, a.z * b.x - a.x * b.z, a.x * b.y - a.y * b.x⟩

/-- Euclidean norm of a 3-vector. -/
noncomputable def norm3 (a : V3) : ℝ := Real.sqrt (a.x ^ 2 + a.y ^ 2 + a.z ^ 2)

/-- Modelled from the spec: `common.normalise` (module `common.py` is not
among the sources).  The spec's "normalize(v)" is the unit vector along v,
i.e. v divided by its Euclidean norm. -/
noncomputable def normalise (a : V3) : V3 := (1 / norm3 a) • a

/-- Modelled from the spec: `common.VY` (module `common.py` is not among the
sources), the "fixed reference axis" substituted for the third reference
atom of atom 2 (`coord_sys.py` line 353); the unit vector along y. -/
def VY : V3 := ⟨0, 1, 0⟩

/-- Modelled from the spec: `common.DEG_TO_RAD` (module `common.py` is not
among the sources), the degrees-to-radians conversion factor. -/
noncomputable def DEG_TO_RAD : ℝ := Real.pi / 180

/- ------------------------------------------------------------------ -/
/- Atom specs (class ZMTAtom, coord_sys.py lines 100-195).             -/
/- ------------------------------------------------------------------ -/

/-- A distance/angle/dihedral field of an atom spec: either a numeric
literal (already converted to radians when angle-like) or the raw text of a
variable reference, possibly still carrying its leading "-" sign marker
(`ZMTAtom.__process`, lines 169-178, keeps the whole string in that case). -/
inductive ZVal where
  | lit : ℝ → ZVal
  | var : String → ZVal

/-- A parsed z-matrix atom line.  The four constructors are the four regex
patterns of `ZMTAtom.__init__` (lines 105-114): name only; name + reference
+ distance; + reference + angle; + reference + dihedral.  References are the
1-based indices of earlier atoms. -/
inductive ZMTAtom where
  | first (name : String)
  | second (name : String) (a : Nat) (dst : ZVal)
  | third (name : String) (a : Nat) (dst : ZVal) (b : Nat) (ang : ZVal)
  | rest (name : String) (a : Nat) (dst : ZVal) (b : Nat) (ang : ZVal)
      (c : Nat) (dih : ZVal)

/-- The atom's name field. -/
def ZMTAtom.name : ZMTAtom → String
  | .first n => n
  | .second n _ _ => n
  | .third n _ _ _ _ => n
  | .rest n _ _ _ _ _ _ => n

/-- Python's `str.lower()` on one character: atom names are `\w` characters
(ASCII in Python 2), so lower-casing maps 'A'-'Z' to 'a'-'z'. -/
def lowerChar (c : Char) : Char :=
  if 'A' ≤ c && c ≤ 'Z' then Char.ofNat (c.toNat + 32) else c

/-- Python's `str.lower()` on an atom name. -/
def lowerStr (s : String) : String := String.mk (s.toList.map lowerChar)

/-- `ZMTAtom.not_dummy` (lines 142-144): true iff the atom's lower-cased
name is neither "x" nor "xx". -/
def notDummy (name : String) : Bool :=
  lowerStr name ≠ "x" && lowerStr name ≠ "xx"

/-- `ZMTAtom.dih_var` (lines 146-155): the name of the dihedral variable
with a leading "-" sign marker stripped, or none if the dihedral field is
absent or a literal. -/
def ZMTAtom.dih_var : ZMTAtom → Option String
  | .rest _ _ _ _ _ _ (.var s) =>
      some (match s.toList with
            | '-' :: t => String.mk t
            | _ => s)
  | _ => none

/-- `ZMTAtom.all_vars` (lines 157-167): the variable names among the
distance/angle/dihedral fields, each with a leading "-" stripped. -/
def ZMTAtom.all_vars (atom : ZMTAtom) : List String :=
  let strip : ZVal → List String := fun v =>
    match v with
    | .lit _ => []
    | .var s => [match s.toList with
                 | '-' :: t => String.mk t
                 | _ => s]
  match atom with
  | .first _ => []
  | .second _ _ d => strip d
  | .third _ _ d _ g => strip d ++ strip g
  | .rest _ _ d _ g _ h => strip d ++ strip g ++ strip h

/-- `ZMatrix.get_var` (lines 287-297): a literal is returned unchanged; a
variable reference is looked up in the table of variable values, negated
when its text starts with "-" (the lookup then uses the unsigned name). -/
noncomputable def getVar (vars : String → ℝ) : ZVal → ℝ
  | .lit r => r
  | .var s =>
      match s.toList with
      | '-' :: t => -(vars (String.mk t))
      | _ => vars s

/- ------------------------------------------------------------------ -/
/- Z-matrix build-up (ZMatrix.get_cartesians, coord_sys.py 325-382).   -/
/- ------------------------------------------------------------------ -/

/-- The new position computed by the build-up loop body for an atom with
all three references resolved (`coord_sys.py` lines 359-376), a literal
transcription: n and nn are crossed first and normalised afterwards. -/
noncomputable def codeNewpos (avec bvec cvec : V3) (dst ang dih : ℝ) : V3 :=
  let v1 := avec - bvec
  let v2 := avec - cvec
  let n := cross v1 v2
  let nn := cross v1 n
  let n1 := normalise n
  let nn1 := normalise nn
  let n2 := (-Real.sin dih) • n1
  let nn2 := (Real.cos dih) • nn1
  let v3 := normalise (n2 + nn2)
  let v3b := (dst * Real.sin ang) • v3
  let v1b := (dst * Real.cos ang) • normalise v1
  avec + v3b - v1b

/-- One iteration of the build-up loop (`coord_sys.py` lines 333-376):
`placed` maps the 1-based index of an already processed atom to its
`.vector`.  An atom with no references goes to the origin (line 335), one
reference gives (dst, 0, 0) (line 344), two references substitute the fixed
axis `VY` and a 90-degree dihedral (lines 352-354), three references use the
positions of all reference atoms (lines 356-357). -/
noncomputable def placeAtom (vars : String → ℝ) (placed : Nat → V3) :
    ZMTAtom → V3
  | .first _ => 0
  | .second _ _ dst => ⟨getVar vars dst, 0, 0⟩
  | .third _ a dst b ang =>
      codeNewpos (placed a) (placed b) VY (getVar vars dst)
        (getVar vars ang) (90 * DEG_TO_RAD)
  | .rest _ a dst b ang c dih =>
      codeNewpos (placed a) (placed b) (placed c) (getVar vars dst)
        (getVar vars ang) (getVar vars dih)

/-- The `.vector` values assigned by one full build-up pass, in declaration
order (dummy atoms included).  `ix` is the 1-based index of the next atom;
each computed vector is recorded in `placed` for use by later atoms
(`atom.vector = ...`, and the `zmtatoms_dict` lookups of lines 340/349/356).
The initial `placed` is arbitrary: a well-formed z-matrix only ever looks up
indices that have already been written this pass. -/
noncomputable def buildVectors (vars : String → ℝ) :
    List ZMTAtom → (Nat → V3) → Nat → List V3
  | [], _, _ => []
  | atom :: restAtoms, placed, ix =>
      let v := placeAtom vars placed atom
      v :: buildVectors vars restAtoms (Function.update placed ix v) (ix + 1)

/-- `ZMatrix.get_cartesians` (lines 325-382) from the current loop state:
every atom is placed and recorded, but only non-dummy atoms are appended to
the emitted list (lines 336-337, 345-346, 378-379). -/
noncomputable def getCartesiansFrom (vars : String → ℝ) :
    List ZMTAtom → (Nat → V3) → Nat → List V3
  | [], _, _ => []
  | atom :: restAtoms, placed, ix =>
      let v := placeAtom vars placed atom
      let tail := getCartesiansFrom vars restAtoms (Function.update placed ix v) (ix + 1)
      if notDummy atom.name then v :: tail else tail

/-- `ZMatrix.get_cartesians` (lines 325-382): positions generated from the
atom specs and the table of variable values; atoms are numbered from 1
(`myenumerate(lines, start=1)`, line 236). -/
noncomputable def get_cartesians (vars : String → ℝ) (atoms : List ZMTAtom) :
    List V3 :=
  getCartesiansFrom vars atoms (fun _ => 0) 1

/-- Well-formedness of the reference indices: the atom at 0-based position
`i` (1-based index `i+1`) refers only to strictly earlier atoms, i.e. its
references lie in `[1, i]`.  This is the data-model invariant "each strictly
referring to an earlier-declared atom". -/
def refOk (i a : Nat) : Bool := 1 ≤ a && a ≤ i

def refsEarlier (atoms : List ZMTAtom) : Bool :=
  List.all (List.enum atoms) fun p =>
    match p.2 with
    | .first _ => true
    | .second _ a _ => refOk p.1 a
    | .third _ a _ b _ => refOk p.1 a && refOk p.1 b
    | .rest _ a _ b _ c _ => refOk p.1 a && refOk p.1 b && refOk p.1 c

/-- The placement formula exactly as the specification words it (spec 4.2 /
claim C1): "let v1 = pos(a_ref)−pos(b_ref), v2 = pos(a_ref)−pos(c_ref);
n = normalize(v1×v2); nn = normalize(v1×n); direction =
normalize(−sin(t)·n + cos(t)·nn); newpos = pos(a_ref) + d·sin(a)·direction −
d·cos(a)·normalize(v1)" — here nn crosses v1 with the already normalised n. -/
noncomputable def specNewpos (apos bpos cpos : V3) (d a t : ℝ) : V3 :=
  let v1 := apos - bpos
  let v2 := apos - cpos
  let n := normalise (cross v1 v2)
  let nn := normalise (cross v1 n)
  let direction := normalise ((-Real.sin t) • n + (Real.cos t) • nn)
  apos + (d * Real.sin a) • direction - (d * Real.cos a) • normalise v1

/- ------------------------------------------------------------------ -/
/- Token processing (ZMTAtom.__process and the atom-line patterns).    -/
/- ------------------------------------------------------------------ -/

/-- Whether `re.match(r"[+-]?\d+(\.\d+)?", s)` succeeds (line 173).
`re.match` anchors at the start only, and the group `(\.\d+)?` may match the
empty string, so a match exists exactly when an optional sign is followed by
at least one digit. -/
def numPrefixMatch (s : String) : Bool :=
  match s.toList with
  | '+' :: c :: _ => c.isDigit
  | '-' :: c :: _ => c.isDigit
  | c :: _ => c.isDigit
  | [] => false

/-- The natural number denoted by a list of decimal digits. -/
def digitsVal (cs : List Char) : Nat :=
  cs.foldl (fun a c => a * 10 + (c.toNat - 48)) 0

/-- Python's built-in `float(s)` on the strings reachable from
`ZMTAtom.__process` (line 175/177: `float(varstr)` is only evaluated when
`numPrefixMatch` holds, so the special spellings "inf"/"nan" can never
occur): an optional sign, a decimal mantissa with at least one digit, and an
optional exponent; any other string raises ValueError, modelled as `none`. -/
noncomputable def pyFloat (s : String) : Option ℝ :=
  let cs := s.toList
  let sgn : ℝ := match cs with
    | '-' :: _ => -1
    | _ => 1
  let cs1 : List Char := match cs with
    | '+' :: t => t
    | '-' :: t => t
    | _ => cs
  let ip := cs1.takeWhile Char.isDigit
  let cs2 := cs1.dropWhile Char.isDigit
  let frac : List Char := match cs2 with
    | '.' :: t => t.takeWhile Char.isDigit
    | _ => []
  let cs3 : List Char := match cs2 with
    | '.' :: t => t.dropWhile Char.isDigit
    | _ => cs2
  if ip.isEmpty && frac.isEmpty then none
  else
    let mant : ℝ := (digitsVal ip : ℝ) + (digitsVal frac : ℝ) / (10 : ℝ) ^ frac.length
    match cs3 with
    | [] => some (sgn * mant)
    | e :: t =>
        if e = 'e' || e = 'E' then
          let esgn : ℤ := match t with
            | '-' :: _ => -1
            | _ => 1
          let t1 : List Char := match t with
            | '+' :: u => u
            | '-' :: u => u
            | _ => t
          let ed := t1.takeWhile Char.isDigit
          let t2 := t1.dropWhile Char.isDigit
          if ed.isEmpty || !t2.isEmpty then none
          else some (sgn * mant * (10 : ℝ) ^ (esgn * (digitsVal ed : ℤ)))
        else none

/-- `ZMTAtom.__process` (lines 169-178): if the numeric-literal pattern
matches at the start of the token, `float(varstr)` is evaluated (raising
ValueError — modelled `none` — when the rest of the token is not numeric)
and angle-like values are converted from degrees to radians; otherwise the
token is kept as a variable reference. -/
noncomputable def process (varstr : String) (isangle : Bool) : Option ZVal :=
  if numPrefixMatch varstr then
    match pyFloat varstr with
    | some v => some (.lit (if isangle then v * DEG_TO_RAD else v))
    | none => none
  else some (.var varstr)

/-- A character of class `\w` (Python 2 `re` without flags): letters,
digits and the underscore. -/
def wordChar (c : Char) : Bool := c.isAlphanum || c = '_'

/-- A token that the group `(\w\w?)` followed by whitespace matches whole:
one or two word characters. -/
def isNameTok (t : String) : Bool :=
  (t.length = 1 || t.length = 2) && t.toList.all wordChar

/-- A token that the group `(\d+)` followed by whitespace matches whole. -/
def isDigitsTok (t : String) : Bool :=
  !t.isEmpty && t.toList.all Char.isDigit

/-- A character of class `\s` (Python 2 `re`). -/
def pyWhite (c : Char) : Bool :=
  c = ' ' || c = '\t' || c = '\n' || c = '\r' || c = '\x0b' || c = '\x0c'

/-- Helper for `tokenize`: splits on runs of whitespace, accumulating the
current (reversed) token. -/
def tokenizeAux : List Char → List Char → List String
  | [], acc => if acc.isEmpty then [] else [String.mk acc.reverse]
  | c :: restCs, acc =>
      if pyWhite c then
        if acc.isEmpty then tokenizeAux restCs []
        else String.mk acc.reverse :: tokenizeAux restCs []
      else tokenizeAux restCs (c :: acc)

/-- Whitespace splitting of an atom-spec line into its `\s+`-separated
tokens. -/
def tokenize (line : String) : List String := tokenizeAux line.toList []

/-- `self.name = self.name[0].upper() + self.name[1:]` (line 125). -/
def capitalize (s : String) : String :=
  match s.toList with
  | c :: t => String.mk (c.toUpper :: t)
  | [] => s

/-- The pattern `aRest` (line 114) applied to a tokenized line, together
with the field conversions of lines 124-134.  `none`: the pattern does not
match (the next pattern is tried); `some none`: the pattern matches but a
`float()` conversion raises (construction crashes); `some (some atom)`:
success.  `re.match` only anchors at the start, so trailing tokens beyond
the seventh are ignored. -/
noncomputable def try7 : List String → Option (Option ZMTAtom)
  | n :: a :: d :: b :: g :: c :: h :: _ =>
      if isNameTok n && isDigitsTok a && isDigitsTok b && isDigitsTok c then
        some (match process d false, process g true, process h true with
              | some dv, some gv, some hv =>
                  some (.rest (capitalize n) (digitsVal a.toList) dv
                    (digitsVal b.toList) gv (digitsVal c.toList) hv)
              | _, _, _ => none)
      else none
  | _ => none

/-- The pattern `a3` (line 111), as `try7`. -/
noncomputable def try5 : List String → Option (Option ZMTAtom)
  | n :: a :: d :: b :: g :: _ =>
      if isNameTok n && isDigitsTok a && isDigitsTok b then
        some (match process d false, process g true with
              | some dv, some gv =>
                  some (.third (capitalize n) (digitsVal a.toList) dv
                    (digitsVal b.toList) gv)
              | _, _ => none)
      else none
  | _ => none

/-- The pattern `a2` (line 108), as `try7`. -/
noncomputable def try3 : List String → Option (Option ZMTAtom)
  | n :: a :: d :: _ =>
      if isNameTok n && isDigitsTok a then
        some (match process d false with
              | some dv => some (.second (capitalize n) (digitsVal a.toList) dv)
              | none => none)
      else none
  | _ => none

/-- The pattern `a1` (line 105): `\s*(\w\w?)\s*` anchored at the start
only, so it matches whenever the first token starts with a word character;
the name is its first one or two word characters. -/
def try1 : List String → Option ZMTAtom
  | t :: _ =>
      match (t.toList.takeWhile wordChar).take 2 with
      | [] => none
      | nm => some (.first (capitalize (String.mk nm)))
  | [] => none

/-- `ZMTAtom.__init__` (lines 101-140) on one atom-spec line: the patterns
are tried longest first (line 117); if none matches, or a matched pattern's
`float()` conversion raises, construction crashes (`none`).  The model is
token-exact for the 3/5/7-field patterns (each regex group is delimited by
mandatory whitespace there) and start-anchored for the 1-field pattern. -/
noncomputable def parseAtomLine (line : String) : Option ZMTAtom :=
  let ts := tokenize line
  match try7 ts with
  | some r => r
  | none =>
      match try5 ts with
      | some r => r
      | none =>
          match try3 ts with
          | some r => r
          | none => try1 ts

/- ------------------------------------------------------------------ -/
/- ZMatrix construction (ZMatrix.__init__, coord_sys.py 213-285).      -/
/- ------------------------------------------------------------------ -/

/-- The failure modes of z-matrix construction.  The source raises
`ZMatrixException` with distinct messages: "Z-matrix not found in string"
(line 220, the spec's ParseError) and "Variable '...' not given in z-matrix"
(line 277, the spec's CompletenessError). -/
inductive ZmtError where
  | parse (text : String)
  | completeness (var : String)

/-- The string keys of the `self.angles` dictionary (lines 243-251): for
each atom, the stripped dihedral variable name (via `dih_var`) and the raw
angle field when it is a variable reference (stored unstripped, line 251).
Float-valued angle literals are also used as dictionary keys by the source;
they can never collide with the string keys looked up later and are
omitted. -/
def anglesSet (atoms : List ZMTAtom) : List String :=
  atoms.foldl (fun acc atom =>
    let d : List String := match atom.dih_var with
      | some s => [s]
      | none => []
    let g : List String := match atom with
      | .third _ _ _ _ (.var s) => [s]
      | .rest _ _ _ _ (.var s) _ _ => [s]
      | _ => []
    acc ++ d ++ g) []

/-- `ZMatrix.__init__` from the parsed atom-spec lines and the parsed
variable-assignment section (pairs of variable name and value, in file
order): builds the table of variable values, converting angle-valued
variables from degrees to radians (lines 262-269), then checks that every
variable referenced by an atom is given (lines 271-277), raising the
completeness error at the first one that is not.  On success the table is
returned. -/
noncomputable def mkZMatrix (atoms : List ZMTAtom)
    (assigns : List (String × ℝ)) : Except ZmtError (List (String × ℝ)) :=
  let var_names := assigns.map Prod.fst
  let angles := anglesSet atoms
  let vars := assigns.map fun p =>
    (p.1, if angles.contains p.1 then p.2 * DEG_TO_RAD else p.2)
  let zmt_ordered_vars := (atoms.map ZMTAtom.all_vars).flatten
  match zmt_ordered_vars.find? (fun v => !var_names.contains v) with
  | some v => .error (.completeness v)
  | none => .ok vars

/- ------------------------------------------------------------------ -/
/- Internal coordinates (CoordSys/ZMatrix set_internals/get_internals). -/
/- ------------------------------------------------------------------ -/

/-- The state of a `ZMatrix` instance that `set_internals` touches:
`_coords` (the flat internal-coordinate vector), the parsed atom specs, the
ordered variable names, the table of variable values, and the positions
stored in the wrapped `Atoms` object. -/
structure ZMatrixState where
  zmtatoms : List ZMTAtom
  var_names : List String
  vars : String → ℝ
  _coords : List ℝ
  atomPositions : List V3

/-- `CoordSys.get_internals` (lines 43-44): returns (a copy of) `_coords`;
in the value model a copy is the value itself. -/
def ZMatrixState.get_internals (s : ZMatrixState) : List ℝ := s._coords

/-- `ZMatrix.set_internals` (lines 316-323): `CoordSys.set_internals`
(lines 33-38) asserts that the new vector has the current length (`none`
models the assertion failure), stores it as `_coords`, and refreshes the
atom positions from `get_cartesians` — which at that point still reads the
old variable table, since the `self.vars` update (lines 322-323) happens
after the `CoordSys.set_internals` call. -/
noncomputable def ZMatrixState.set_internals (s : ZMatrixState)
    (xl : List ℝ) : Option ZMatrixState :=
  if xl.length = s._coords.length then
    some { s with
           _coords := xl
           atomPositions := get_cartesians s.vars s.zmtatoms
           vars := (xl.zip s.var_names).foldl
             (fun f p => Function.update f p.2 p.1) s.vars }
  else none

/-- The state of an `XYZ` instance (lines 453-488): just the flat
coordinate vector and the wrapped atom positions; `XYZ.get_cartesians`
returns `_coords` itself (line 476). -/
structure XYZState where
  _coords : List ℝ
  atomPositions : List ℝ

/-- `CoordSys.get_internals` on an `XYZ` instance. -/
def XYZState.get_internals (s : XYZState) : List ℝ := s._coords

/-- `CoordSys.set_internals` (lines 33-38) as inherited by `XYZ`. -/
def XYZState.set_internals (s : XYZState) (xl : List ℝ) : Option XYZState :=
  if xl.length = s._coords.length then
    some { s with _coords := xl, atomPositions := xl }
  else none

/- ------------------------------------------------------------------ -/
/- metric.py: contravariant/covariant transforms.                      -/
/- ------------------------------------------------------------------ -/

/-- `btb` (metric.py lines 279-283): the product Bᵀ (B vec). -/
noncomputable def btb (B : Matrix (Fin m) (Fin n) ℝ) (vec : Fin n → ℝ) :
    Fin n → ℝ :=
  Bᵀ.mulVec (B.mulVec vec)

/-- `contoco` (metric.py lines 260-267): contravariant to covariant, with
`F` the derivative-matrix function and `pos` the evaluation position. -/
noncomputable def contoco (F : P → Matrix (Fin m) (Fin n) ℝ) (pos : P)
    (vec : Fin n → ℝ) : Fin n → ℝ :=
  btb (F pos) vec

/-- `cotocon` (metric.py lines 269-277): covariant to contravariant.  The
source computes `solve(M, vec)` with M = Bᵀ B; `numpy.linalg.solve` returns
the exact solution of M u = vec when M is nonsingular (and raises
otherwise), modelled by the matrix inverse — no explicit inverse of the
source is thereby asserted, only the solution of the linear system (see the
theorem `metric_lower_raises_solve`). -/
noncomputable def cotocon (F : P → Matrix (Fin m) (Fin n) ℝ) (pos : P)
    (vec : Fin n → ℝ) : Fin n → ℝ :=
  let B := F pos
  let M := Bᵀ * B
  M⁻¹.mulVec vec

/- The `Metric` class (metric.py lines 67-156).  Its constructor stores
`NumDiff(fun)`; `_fprime_as_matrix` (lines 133-147) evaluates the numerical
Jacobian and reshapes it to two dimensions with `size(x)` columns.
Modelled from the spec: the numerical-Jacobian collaborator (`func.py` is
not among the sources) is abstracted as the function `F` from positions to
the reshaped Jacobian matrix (spec 4.6: J[i,j] = d Cartesian_i / d
internal_j). -/
namespace Metric

/-- `Metric.lower` (metric.py lines 149-150). -/
noncomputable def lower (F : P → Matrix (Fin m) (Fin n) ℝ)
    (vec : Fin n → ℝ) (place : P) : Fin n → ℝ :=
  contoco F place vec

/-- `Metric.raises` (metric.py lines 152-153). -/
noncomputable def raises (F : P → Matrix (Fin m) (Fin n) ℝ)
    (vec : Fin n → ℝ) (place : P) : Fin n → ℝ :=
  cotocon F place vec

end Metric

/- The `Default` class (metric.py lines 12-65): contra- and covariant
vectors coincide; `lower`/`raises` return `deepcopy(vec)`, which in the
value model is `vec` itself; the position argument is ignored. -/
namespace DefaultMetric

/-- `Default.lower` (metric.py lines 50-51). -/
def lower (vec : α) (place : β) : α := vec

/-- `Default.raises` (metric.py lines 53-54). -/
def raises (vec : α) (place : β) : α := vec

end DefaultMetric

/- ------------------------------------------------------------------ -/
/- B_globals (metric.py lines 332-479).                                -/
/- ------------------------------------------------------------------ -/

/-- The per-atom 3x3 block of `B_R` (metric.py lines 434-437), the
skew-symmetric cross-product generator of the atom's offset `pcr`. -/
noncomputable def skewB (p : V3) : Matrix (Fin 3) (Fin 3) ℝ :=
  !![0, p.z, -p.y; -p.z, 0, p.x; p.y, -p.x, 0]

/-- The i-th Cartesian component of a 3-vector. -/
noncomputable def comp (c : V3) : Fin 3 → ℝ
  | 0 => c.x
  | 1 => c.y
  | 2 => c.z

/-- The geometric center (metric.py lines 415-420): the sum of the rows of
the (N,3) geometry divided by N. -/
noncomputable def centroid (carts : Fin N → V3) : V3 :=
  (1 / (N : ℝ)) • ∑ i, carts i

/-- The translation basis `B_T` (metric.py lines 425, 431-432): one
`eye(3)` block per atom; rows are indexed by (atom, Cartesian axis) as in
the flattened (N*3, 3) array. -/
noncomputable def B_T (N : ℕ) : Matrix (Fin N × Fin 3) (Fin 3) ℝ :=
  fun ik j => if ik.2 = j then 1 else 0

/-- The rotation basis `B_R` (metric.py lines 426, 434-437): one `skewB`
block per atom, built from the atom's offset from the geometric center. -/
noncomputable def B_R (carts : Fin N → V3) :
    Matrix (Fin N × Fin 3) (Fin 3) ℝ :=
  fun ik j => skewB (carts ik.1 - centroid carts) ik.2 j

/-- The Gram matrix `Br = B_R.T * B_R` as accumulated by `brtbrm1`
(metric.py lines 454-462): only the lower triangle is filled (the upper
off-diagonal entries remain 0), the diagonal carries dot(c,c) - c_i². -/
noncomputable def BrGram (coords : Fin N → V3) : Matrix (Fin 3) (Fin 3) ℝ :=
  fun i j =>
    if j.val < i.val then -∑ q, comp (coords q) i * comp (coords q) j
    else if j = i then ∑ q, (V3.dot (coords q) (coords q)
      - comp (coords q) i * comp (coords q) i)
    else 0

/-- `brtbrm1` (metric.py lines 449-479): the closed-form 3x3 cofactor
inverse of the rotation Gram matrix. -/
noncomputable def brtbrm1 (coords : Fin N → V3) : Matrix (Fin 3) (Fin 3) ℝ :=
  let Br := BrGram coords
  let a := Br 1 1 * Br 2 2 - Br 2 1 * Br 2 1
  let b := Br 2 1 * Br 2 0 - Br 2 2 * Br 1 0
  let c := Br 1 0 * Br 2 1 - Br 2 0 * Br 1 1
  let d := b
  let e := Br 0 0 * Br 2 2 - Br 2 0 * Br 2 0
  let f := Br 1 0 * Br 2 0 - Br 0 0 * Br 2 1
  let g := c
  let h := f
  let k := Br 0 0 * Br 1 1 - Br 1 0 * Br 1 0
  let z := Br 0 0 * a + Br 1 0 * b + Br 2 0 * c
  (1 / z) • !![a, d, g; b, e, h; c, f, k]

/-- `B_globals` (metric.py lines 332-446): the translation and rotation
bases for an N-row geometry together with the inverses of their Gram
matrices, (B_T, (B_Tᵀ B_T)⁻¹ = eye(3)/N, B_R, (B_Rᵀ B_R)⁻¹). -/
noncomputable def B_globals (carts : Fin N → V3) :
    Matrix (Fin N × Fin 3) (Fin 3) ℝ × Matrix (Fin 3) (Fin 3) ℝ
      × Matrix (Fin N × Fin 3) (Fin 3) ℝ × Matrix (Fin 3) (Fin 3) ℝ :=
  (B_T N, (1 / (N : ℝ)) • (1 : Matrix (Fin 3) (Fin 3) ℝ),
   B_R carts, brtbrm1 (fun i => carts i - centroid carts))

/-- `contoco_red` (metric.py lines 285-306): contravariant to covariant
with the global translation/rotation components projected out.  `F` gives
the reshaped Jacobian with rows indexed (atom, axis), `f` the Cartesian
geometry. -/
noncomputable def contoco_red (F : P → Matrix (Fin N × Fin 3) (Fin n) ℝ)
    (f : P → Fin N → V3) (pos : P) (vec : Fin n → ℝ) : Fin n → ℝ :=
  let B := F pos
  let bg := B_globals (f pos)
  let BT := bg.1
  let BT2_inv := bg.2.1
  let BR := bg.2.2.1
  let BR2_inv := bg.2.2.2
  let M := B.mulVec vec
  let M_T := BT.mulVec (BT2_inv.mulVec (BTᵀ.mulVec M))
  let M_R := BR.mulVec (BR2_inv.mulVec (BRᵀ.mulVec M))
  Bᵀ.mulVec (M - M_T - M_R)

/-- `cotocon_red` (metric.py lines 309-330): covariant to contravariant
with the global components removed; `solve` modelled as for `cotocon`. -/
noncomputable def cotocon_red (F : P → Matrix (Fin N × Fin 3) (Fin n) ℝ)
    (f : P → Fin N → V3) (pos : P) (vec : Fin n → ℝ) : Fin n → ℝ :=
  let B := F pos
  let bg := B_globals (f pos)
  let BT := bg.1
  let BT2_inv := bg.2.1
  let BR := bg.2.2.1
  let BR2_inv := bg.2.2.2
  let M_T := BT * (BT2_inv * (BTᵀ * B))
  let M_R := BR * (BR2_inv * (BRᵀ * B))
  let M := Bᵀ * (B - M_T - M_R)
  M⁻¹.mulVec vec

/- ------------------------------------------------------------------ -/
/- The global metric context (metric.py lines 219-257).                -/
/- ------------------------------------------------------------------ -/

/-- The failure raised when `lower`/`raises` is called on the
uninitialized context: class `No_metric` (metric.py lines 219-226) defines
neither method, so the attribute lookup itself fails (AttributeError);
the specification names this failure mode UninitializedMetricError. -/
inductive MetricError where
  | uninitialized

/-- The class of the object currently stored in the module-global
`metric`: `No_metric`, `Default`, `Metric` (with its Jacobian function) or
`Metric_reduced` (with its Jacobian function and geometry function). -/
inductive MetricClass (N n : ℕ) where
  | no_metric
  | defaultMetric
  | metricFull (F : (Fin n → ℝ) → Matrix (Fin (N * 3)) (Fin n) ℝ)
  | metricReduced (F : (Fin n → ℝ) → Matrix (Fin N × Fin 3) (Fin n) ℝ)
      (f : (Fin n → ℝ) → Fin N → V3)

/-- The initial value of the module-global `metric` (metric.py line 245):
`No_metric()`. -/
def metric (N n : ℕ) : MetricClass N n := .no_metric

/-- `setup_metric` (metric.py lines 247-257): whatever `F` is passed, the
global metric is set to `Default(F)` (line 257) — and `Default.__init__`
ignores its argument. -/
def setup_metric (F : α) : MetricClass N n := .defaultMetric

/-- `metric.lower(vec, place)` on the active context: Python looks the
method up on the object's class and calls it.  On `No_metric` the lookup
fails (the spec's UninitializedMetricError); the other classes dispatch to
their `lower`. -/
noncomputable def metricLower (ctx : MetricClass N n) (vec place : Fin n → ℝ) :
    Except MetricError (Fin n → ℝ) :=
  match ctx with
  | .no_metric => .error .uninitialized
  | .defaultMetric => .ok (DefaultMetric.lower vec place)
  | .metricFull F => .ok (Metric.lower F vec place)
  | .metricReduced F f => .ok (contoco_red F f place vec)

/-- `metric.raises(vec, place)` on the active context, as `metricLower`. -/
noncomputable def metricRaises (ctx : MetricClass N n) (vec place : Fin n → ℝ) :
    Except MetricError (Fin n → ℝ) :=
  match ctx with
  | .no_metric => .error .uninitialized
  | .defaultMetric => .ok (DefaultMetric.raises vec place)
  | .metricFull F => .ok (Metric.raises F vec place)
  | .metricReduced F f => .ok (cotocon_red F f place vec)

/- ------------------------------------------------------------------ -/
/- CoordSys.get_forces (coord_sys.py lines 46-56, 80-86).              -/
/- ------------------------------------------------------------------ -/

/-- Python failures relevant to `get_forces`. -/
inductive PyErr where
  | attributeError (attr : String)
  | nameError (name : String)

/-- Every attribute ever assigned on a plain `CoordSys` instance: `_dims`
and `_atoms` in `__init__` (lines 11-12) and `_coords` in `set_positions` /
`set_internals` (lines 30, 35).  Neither `internals` nor `forces_coord_sys`
nor `_state_lock` is ever assigned anywhere in the class. -/
def coordSysInstanceAttrs : List String := ["_dims", "_atoms", "_coords"]

/-- The methods and properties defined by class `CoordSys`
(lines 14-97). -/
def coordSysClassAttrs : List String :=
  ["dims", "get_positions", "get_chemical_symbols", "set_positions",
   "set_internals", "get_cartesians", "get_internals", "get_forces",
   "copy", "atoms", "set_atoms", "xyz_str", "native_str",
   "get_transform_matrix", "int2cart"]

/-- The module-global names bound in `coord_sys.py`: its imports (lines
1-5) and its top-level definitions.  The name `numerical`, dereferenced by
`get_transform_matrix` (line 84), is not among them. -/
def coordSysModuleNames : List String :=
  ["re", "ase", "Atoms", "numpy", "common", "CoordSys", "ZMTAtom",
   "myenumerate", "ZMatrix", "Anchor", "Dummy", "RotAndTrans",
   "ComplexCoordSys", "XYZ", "CoordSysException", "ZMatrixException",
   "A", "B", "C"]

/-- Python attribute lookup `self.attr` on a `CoordSys` instance. -/
def coordSysGetattr (attr : String) : Except PyErr Unit :=
  if coordSysInstanceAttrs.contains attr || coordSysClassAttrs.contains attr
  then .ok () else .error (.attributeError attr)

/-- Python global-name lookup inside `coord_sys.py`. -/
def coordSysGlobal (name : String) : Except PyErr Unit :=
  if coordSysModuleNames.contains name then .ok ()
  else .error (.nameError name)

/-- `CoordSys.get_transform_matrix` (lines 80-86): its body starts with
`nd = numerical.NumDiff()`, dereferencing the module-global `numerical`,
which `coord_sys.py` never imports — the call raises NameError before any
differentiation happens. -/
def get_transform_matrix : Except PyErr Unit := do
  let _ ← coordSysGlobal "numerical"
  .ok ()

/-- `CoordSys.get_forces` (lines 46-56), name lookups in evaluation order.
The external collaborators (the wrapped ase `Atoms` object's
`set_positions`/`get_forces`) are out of scope and modelled as succeeding;
even so, line 50 evaluates the argument `self.internals` — an attribute no
code path ever assigns (the accessor is the method `get_internals`) — so
the call raises AttributeError there, before `get_transform_matrix`,
`numpy.dot`, and the equally unassigned `self.forces_coord_sys` of lines
54/56 are ever reached. -/
def get_forces (coord_sys_forces : Bool) : Except PyErr (List ℝ) := do
  -- line 47: self._atoms.set_positions(self.get_positions) — note the
  -- bound method itself, not its result, is passed to the collaborator
  let _ ← coordSysGetattr "_atoms"
  let _ ← coordSysGetattr "get_positions"
  -- line 49: forces_cartesian = self._atoms.get_forces().flatten()
  let _ ← coordSysGetattr "_atoms"
  -- line 50: transform_matrix = self.get_transform_matrix(self.internals)
  let _ ← coordSysGetattr "get_transform_matrix"
  let _ ← coordSysGetattr "internals"
  let _ ← get_transform_matrix
  -- line 51: numpy.dot(transform_matrix, forces_cartesian)
  -- lines 53-56: return self.forces_coord_sys (never assigned either)
  let _ ← coordSysGetattr "forces_coord_sys"
  .ok []

/- ------------------------------------------------------------------ -/
/- Theorems.  First, shared helper lemmas.                             -/
/- ------------------------------------------------------------------ -/

theorem norm3_nonneg (v : V3) : 0 ≤ norm3 v := Real.sqrt_nonneg _

theorem norm3_pos {v : V3} (hv : v ≠ 0) : 0 < norm3 v := by
  apply Real.sqrt_pos.mpr
  have h : v.x ≠ 0 ∨ v.y ≠ 0 ∨ v.z ≠ 0 := by
    by_contra hc
    push_neg at hc
    exact hv (V3.ext' (by simpa using hc.1) (by simpa using hc.2.1)
      (by simpa using hc.2.2))
  rcases h with h | h | h
  · nlinarith [pow_two_pos_of_ne_zero h, sq_nonneg v.y, sq_nonneg v.z]
  · nlinarith [pow_two_pos_of_ne_zero h, sq_nonneg v.x, sq_nonneg v.z]
  · nlinarith [pow_two_pos_of_ne_zero h, sq_nonneg v.x, sq_nonneg v.y]

theorem norm3_smul (c : ℝ) (hc : 0 ≤ c) (v : V3) :
    norm3 (c • v) = c * norm3 v := by
  unfold norm3
  rw [show (c • v).x = c * v.x from rfl, show (c • v).y = c * v.y from rfl,
    show (c • v).z = c * v.z from rfl]
  rw [show (c * v.x) ^ 2 + (c * v.y) ^ 2 + (c * v.z) ^ 2
      = c ^ 2 * (v.x ^ 2 + v.y ^ 2 + v.z ^ 2) from by ring]
  rw [Real.sqrt_mul (sq_nonneg c), Real.sqrt_sq hc]

theorem normalise_smul_pos {c : ℝ} (hc : 0 < c) (v : V3) :
    normalise (c • v) = normalise v := by
  unfold normalise
  rw [norm3_smul c hc.le v, smul_smul]
  congr 1
  rcases eq_or_ne (norm3 v) 0 with h | h
  · simp [h]
  · field_simp

theorem cross_smul_right (c : ℝ) (v w : V3) :
    cross v (c • w) = c • cross v w := by
  unfold cross
  ext <;> simp <;> ring

theorem cross_zero_right (v : V3) : cross v 0 = 0 := by
  unfold cross
  ext <;> simp

theorem normalise_zero : normalise (0 : V3) = 0 := by
  unfold normalise
  ext <;> simp

/-- Normalising before or after the second cross product makes no
difference: the raw `n = v1 x v2` and the normalised `n` differ by the
nonnegative factor `norm3 n`, which the outer normalisation absorbs. -/
theorem normalise_cross_normalise (v w : V3) :
    normalise (cross v (normalise w)) = normalise (cross v w) := by
  rcases eq_or_ne w 0 with hw | hw
  · rw [hw, normalise_zero]
  · have hn : 0 < norm3 w := norm3_pos hw
    have h1 : normalise w = (1 / norm3 w) • w := rfl
    rw [h1, cross_smul_right, normalise_smul_pos (by positivity)]

/-- The loop body of the build-up (lines 359-376) computes exactly the
formula as the specification states it. -/
theorem codeNewpos_eq_specNewpos (avec bvec cvec : V3) (dst ang dih : ℝ) :
    codeNewpos avec bvec cvec dst ang dih
      = specNewpos avec bvec cvec dst ang dih := by
  simp only [codeNewpos, specNewpos, normalise_cross_normalise]

theorem buildVectors_length (vars : String → ℝ) :
    ∀ (atoms : List ZMTAtom) (placed : Nat → V3) (ix : Nat),
      (buildVectors vars atoms placed ix).length = atoms.length := by
  intro atoms
  induction atoms with
  | nil => intro placed ix; rfl
  | cons atom t ih =>
      intro placed ix
      simp [buildVectors, ih]

/-- The i-th vector produced by a build-up pass is `placeAtom` applied to
the placement map in effect at step i: earlier atoms (1-based indices `ix`
to `ix + i - 1`) read back their own freshly computed vectors, all other
indices still read the initial map. -/
theorem buildVectors_getD (vars : String → ℝ) :
    ∀ (atoms : List ZMTAtom) (placed : Nat → V3) (ix i : Nat),
      i < atoms.length →
      (buildVectors vars atoms placed ix).getD i 0 =
        placeAtom vars
          (fun j => if ix ≤ j ∧ j < ix + i then
              (buildVectors vars atoms placed ix).getD (j - ix) 0
            else placed j)
          (atoms.getD i (.first "")) := by
  intro atoms
  induction atoms with
  | nil => intro placed ix i hi; simp at hi
  | cons atom t ih =>
      intro placed ix i hi
      match i with
      | 0 =>
          have hmap : (fun j => if ix ≤ j ∧ j < ix + 0 then
              (buildVectors vars (atom :: t) placed ix).getD (j - ix) 0
            else placed j) = placed := by
            funext j
            rw [if_neg (by omega)]
          rw [hmap]
          rfl
      | Nat.succ i' =>
          have hi' : i' < t.length := by simpa using hi
          have hstep : buildVectors vars (atom :: t) placed ix =
              placeAtom vars placed atom ::
                buildVectors vars t
                  (Function.update placed ix (placeAtom vars placed atom))
                  (ix + 1) := rfl
          rw [hstep]
          rw [List.getD_cons_succ]
          rw [ih (Function.update placed ix (placeAtom vars placed atom))
            (ix + 1) i' hi']
          have hatom : (atom :: t).getD (i' + 1) (.first "") =
              t.getD i' (.first "") := rfl
          rw [hatom]
          congr 1
          funext j
          by_cases h1 : ix + 1 ≤ j ∧ j < ix + 1 + i'
          · rw [if_pos h1, if_pos (by omega)]
            have hj : j - ix = (j - (ix + 1)) + 1 := by omega
            rw [hj, List.getD_cons_succ]
          · rw [if_neg h1]
            by_cases h2 : j = ix
            · rw [h2, Function.update_same, if_pos (by omega)]
              have hz : ix - ix = 0 := by omega
              rw [hz, List.getD_cons_zero]
            · rw [Function.update_noteq h2]
              rw [if_neg (by omega)]

theorem refsEarlier_second {atoms : List ZMTAtom} {i : Nat} {nm : String}
    {a : Nat} {dst : ZVal} (h : refsEarlier atoms = true)
    (hi : i < atoms.length)
    (hA : atoms.getD i (.first "") = .second nm a dst) :
    1 ≤ a ∧ a ≤ i := by
  rw [List.getD_eq_getElem atoms _ hi] at hA
  have h2 : (i, atoms[i]) ∈ atoms.enum := by
    rw [List.mk_mem_enum_iff_getElem?]
    exact List.getElem?_eq_getElem hi
  have h3 := List.all_eq_true.mp h _ h2
  rw [hA] at h3
  simpa [refOk] using h3

theorem refsEarlier_third {atoms : List ZMTAtom} {i : Nat} {nm : String}
    {a b : Nat} {dst ang : ZVal} (h : refsEarlier atoms = true)
    (hi : i < atoms.length)
    (hA : atoms.getD i (.first "") = .third nm a dst b ang) :
    (1 ≤ a ∧ a ≤ i) ∧ (1 ≤ b ∧ b ≤ i) := by
  rw [List.getD_eq_getElem atoms _ hi] at hA
  have h2 : (i, atoms[i]) ∈ atoms.enum := by
    rw [List.mk_mem_enum_iff_getElem?]
    exact List.getElem?_eq_getElem hi
  have h3 := List.all_eq_true.mp h _ h2
  rw [hA] at h3
  simpa [refOk] using h3

theorem refsEarlier_rest {atoms : List ZMTAtom} {i : Nat} {nm : String}
    {a b c : Nat} {dst ang dih : ZVal} (h : refsEarlier atoms = true)
    (hi : i < atoms.length)
    (hA : atoms.getD i (.first "") = .rest nm a dst b ang c dih) :
    ((1 ≤ a ∧ a ≤ i) ∧ (1 ≤ b ∧ b ≤ i)) ∧ (1 ≤ c ∧ c ≤ i) := by
  rw [List.getD_eq_getElem atoms _ hi] at hA
  have h2 : (i, atoms[i]) ∈ atoms.enum := by
    rw [List.mk_mem_enum_iff_getElem?]
    exact List.getElem?_eq_getElem hi
  have h3 := List.all_eq_true.mp h _ h2
  rw [hA] at h3
  simpa [refOk] using h3

/-- C1: for every z-matrix whose atom at position i resolves distance d,
angle a, dihedral t and references a_ref, b_ref, c_ref, the build-up places
it at pos(a_ref) + d sin(a) normalize(-sin(t) n + cos(t) nn) - d cos(a)
normalize(v1) with v1 = pos(a_ref)-pos(b_ref), v2 = pos(a_ref)-pos(c_ref),
n = normalize(v1 x v2), nn = normalize(v1 x n); an atom with no references
goes to the origin, one with a single reference to (d, 0, 0), and one with
two references uses the same formula with the fixed axis VY in place of
pos(c_ref) and an auxiliary dihedral of 90 degrees. -/
theorem zmatrix_place_formula (vars : String → ℝ) (atoms : List ZMTAtom)
    (href : refsEarlier atoms = true) (i : Nat) (hi : i < atoms.length) :
    match atoms.getD i (.first "") with
    | .first _ => (buildVectors vars atoms (fun _ => 0) 1).getD i 0 = 0
    | .second _ _ dst =>
        (buildVectors vars atoms (fun _ => 0) 1).getD i 0 =
          ⟨getVar vars dst, 0, 0⟩
    | .third _ a dst b ang =>
        (buildVectors vars atoms (fun _ => 0) 1).getD i 0 =
          specNewpos ((buildVectors vars atoms (fun _ => 0) 1).getD (a - 1) 0)
            ((buildVectors vars atoms (fun _ => 0) 1).getD (b - 1) 0) VY
            (getVar vars dst) (getVar vars ang) (90 * DEG_TO_RAD)
    | .rest _ a dst b ang c dih =>
        (buildVectors vars atoms (fun _ => 0) 1).getD i 0 =
          specNewpos ((buildVectors vars atoms (fun _ => 0) 1).getD (a - 1) 0)
            ((buildVectors vars atoms (fun _ => 0) 1).getD (b - 1) 0)
            ((buildVectors vars atoms (fun _ => 0) 1).getD (c - 1) 0)
            (getVar vars dst) (getVar vars ang) (getVar vars dih) := by
  have hkey := buildVectors_getD vars atoms (fun _ => 0) 1 i hi
  rcases hA : atoms.getD i (.first "") with nm | ⟨nm, a, dst⟩
    | ⟨nm, a, dst, b, ang⟩ | ⟨nm, a, dst, b, ang, c, dih⟩
  · rw [hA] at hkey
    simp only [hkey, placeAtom]
  · rw [hA] at hkey
    simp only [hkey, placeAtom]
  · obtain ⟨ha, hb⟩ := refsEarlier_third href hi hA
    rw [hA] at hkey
    simp only [hkey, placeAtom]
    rw [if_pos (show 1 ≤ a ∧ a < 1 + i by omega),
      if_pos (show 1 ≤ b ∧ b < 1 + i by omega)]
    have hsa : a - 1 = a - 1 := rfl
    rw [codeNewpos_eq_specNewpos]
  · obtain ⟨⟨ha, hb⟩, hc⟩ := refsEarlier_rest href hi hA
    rw [hA] at hkey
    simp only [hkey, placeAtom]
    rw [if_pos (show 1 ≤ a ∧ a < 1 + i by omega),
      if_pos (show 1 ≤ b ∧ b < 1 + i by omega),
      if_pos (show 1 ≤ c ∧ c < 1 + i by omega)]
    rw [codeNewpos_eq_specNewpos]

theorem zmatrix_place_formula_witness :
    refsEarlier [ZMTAtom.first "C", .second "H" 1 (.lit 1),
        .third "H" 1 (.lit 1) 2 (.lit 1),
        .rest "H" 1 (.lit 1) 2 (.lit 1) 3 (.lit 1)] = true ∧
    3 < ([ZMTAtom.first "C", .second "H" 1 (.lit 1),
        .third "H" 1 (.lit 1) 2 (.lit 1),
        .rest "H" 1 (.lit 1) 2 (.lit 1) 3 (.lit 1)] : List ZMTAtom).length ∧
    (buildVectors (fun _ => 0) [ZMTAtom.first "C", .second "H" 1 (.lit 1),
        .third "H" 1 (.lit 1) 2 (.lit 1),
        .rest "H" 1 (.lit 1) 2 (.lit 1) 3 (.lit 1)] (fun _ => 0) 1).getD 3 0 =
      specNewpos
        ((buildVectors (fun _ => 0) [ZMTAtom.first "C", .second "H" 1 (.lit 1),
          .third "H" 1 (.lit 1) 2 (.lit 1),
          .rest "H" 1 (.lit 1) 2 (.lit 1) 3 (.lit 1)] (fun _ => 0) 1).getD 0 0)
        ((buildVectors (fun _ => 0) [ZMTAtom.first "C", .second "H" 1 (.lit 1),
          .third "H" 1 (.lit 1) 2 (.lit 1),
          .rest "H" 1 (.lit 1) 2 (.lit 1) 3 (.lit 1)] (fun _ => 0) 1).getD 1 0)
        ((buildVectors (fun _ => 0) [ZMTAtom.first "C", .second "H" 1 (.lit 1),
          .third "H" 1 (.lit 1) 2 (.lit 1),
          .rest "H" 1 (.lit 1) 2 (.lit 1) 3 (.lit 1)] (fun _ => 0) 1).getD 2 0)
        (getVar (fun _ => 0) (.lit 1)) (getVar (fun _ => 0) (.lit 1))
        (getVar (fun _ => 0) (.lit 1)) :=
  ⟨by decide, by decide,
    zmatrix_place_formula (fun _ => 0)
      [ZMTAtom.first "C", .second "H" 1 (.lit 1),
        .third "H" 1 (.lit 1) 2 (.lit 1),
        .rest "H" 1 (.lit 1) 2 (.lit 1) 3 (.lit 1)] (by decide) 3 (by decide)⟩
theorem getCartesiansFrom_eq (vars : String → ℝ) :
    ∀ (atoms : List ZMTAtom) (placed : Nat → V3) (ix : Nat),
      getCartesiansFrom vars atoms placed ix =
        ((atoms.zip (buildVectors vars atoms placed ix)).filter
            (fun p => notDummy p.1.name)).map Prod.snd := by
  intro atoms
  induction atoms with
  | nil => intro placed ix; rfl
  | cons atom t ih =>
      intro placed ix
      show (if notDummy atom.name
            then placeAtom vars placed atom ::
              getCartesiansFrom vars t
                (Function.update placed ix (placeAtom vars placed atom)) (ix + 1)
            else getCartesiansFrom vars t
                (Function.update placed ix (placeAtom vars placed atom)) (ix + 1)) = _
      rw [ih]
      by_cases h : notDummy atom.name
      · simp [buildVectors, h, List.filter_cons]
      · simp [buildVectors, h, List.filter_cons]

theorem getCartesiansFrom_length (vars : String → ℝ) :
    ∀ (atoms : List ZMTAtom) (placed : Nat → V3) (ix : Nat),
      (getCartesiansFrom vars atoms placed ix).length =
        (atoms.filter (fun atom => notDummy atom.name)).length := by
  intro atoms
  induction atoms with
  | nil => intro placed ix; rfl
  | cons atom t ih =>
      intro placed ix
      show (if notDummy atom.name
            then placeAtom vars placed atom ::
              getCartesiansFrom vars t
                (Function.update placed ix (placeAtom vars placed atom)) (ix + 1)
            else getCartesiansFrom vars t
                (Function.update placed ix (placeAtom vars placed atom)) (ix + 1)).length = _
      by_cases h : notDummy atom.name
      · simp [h, ih, List.filter_cons]
      · simp [h, ih, List.filter_cons]

/-- C3 (amended): an atom is excluded from the Cartesian output exactly
when its lower-cased name is "x" or "xx" (not merely starting with "x");
all atoms, dummy or not, are placed and available as references, and the
emitted rows are the placed vectors of the non-dummy atoms in declaration
order. -/
theorem dummy_exclusion_amended (vars : String → ℝ) (atoms : List ZMTAtom) :
    get_cartesians vars atoms =
      ((atoms.zip (buildVectors vars atoms (fun _ => 0) 1)).filter
          (fun p => notDummy p.1.name)).map Prod.snd ∧
    (get_cartesians vars atoms).length =
      (atoms.filter (fun atom => notDummy atom.name)).length :=
  ⟨getCartesiansFrom_eq vars atoms (fun _ => 0) 1,
   getCartesiansFrom_length vars atoms (fun _ => 0) 1⟩

/-- C3 (counterexample): a z-matrix of 3 declared atoms containing an atom
named "X2" produces a Cartesian block of 3 rows, not 3 - 1 = 2: "X2" is not
a dummy name for `ZMTAtom.not_dummy`, which tests for exactly "x"/"xx". -/
theorem dummy_exclusion_counterexample :
    notDummy "X2" = true ∧
    ([ZMTAtom.first "N", .second "X2" 1 (.lit 1),
      .third "H" 1 (.lit 1) 2 (.lit 1)] : List ZMTAtom).length = 3 ∧
    (get_cartesians (fun _ => 0)
      [ZMTAtom.first "N", .second "X2" 1 (.lit 1),
       .third "H" 1 (.lit 1) 2 (.lit 1)]).length = 3 :=
  ⟨by decide, by decide, by decide⟩
/-- C7 (amended): an angle-like token starting with an optionally signed
digit is converted as a float from degrees to radians (the whole token must
parse as a float, otherwise construction fails); a token not starting with
an optionally signed digit is stored as a variable reference; a leading "-"
sign marker on a variable reference makes resolution negate the value
looked up under the unsigned name; and the line "O 1 1.2 2 104.5" parses to
name "O", a=1, dst the literal 1.2, b=2, ang 104.5 degrees in radians. -/
theorem process_amended :
    (∀ (s : String) (b : Bool), numPrefixMatch s = false →
      process s b = some (.var s)) ∧
    (∀ (s : String) (v : ℝ), numPrefixMatch s = true → pyFloat s = some v →
      process s true = some (.lit (v * DEG_TO_RAD)) ∧
        process s false = some (.lit v)) ∧
    (∀ (vars : String → ℝ) (t : List Char),
      getVar vars (.var (String.mk ('-' :: t))) = -(vars (String.mk t))) ∧
    parseAtomLine "O 1 1.2 2 104.5" =
      some (.third "O" 1 (.lit 1.2) 2 (.lit ((104.5 : ℝ) * DEG_TO_RAD))) := by
  refine ⟨?_, ?_, ?_, ?_⟩
  · intro s b h
    unfold process
    rw [h]
    rfl
  · intro s v h hv
    constructor <;> (unfold process; rw [h, hv]; rfl)
  · intro vars t
    rfl
  · have h : parseAtomLine "O 1 1.2 2 104.5" =
        some (.third "O" 1
          (.lit ((1:ℝ) * ((digitsVal ['1'] : ℝ)
            + (digitsVal ['2'] : ℝ) / (10:ℝ) ^ (['2'] : List Char).length))) 2
          (.lit ((1:ℝ) * ((digitsVal ['1','0','4'] : ℝ)
            + (digitsVal ['5'] : ℝ) / (10:ℝ) ^ (['5'] : List Char).length)
              * DEG_TO_RAD))) := rfl
    rw [h, show digitsVal ['1'] = 1 from rfl, show digitsVal ['2'] = 2 from rfl,
      show digitsVal ['1','0','4'] = 104 from rfl,
      show digitsVal ['5'] = 5 from rfl]
    norm_num

/-- C7 (counterexample): the token "2x" is not a numeric literal (Python's
float() rejects it), yet `__process` does not store it as a variable
reference: the numeric-literal pattern matches its prefix "2", so
`float("2x")` is evaluated and raises ValueError (modelled `none`). -/
theorem process_counterexample :
    pyFloat "2x" = none ∧
    numPrefixMatch "2x" = true ∧
    process "2x" true = none :=
  ⟨rfl, rfl, rfl⟩

theorem process_amended_witness :
    numPrefixMatch "q" = false ∧ process "q" true = some (.var "q") ∧
    numPrefixMatch "104.5" = true ∧
    process "104.5" true = some (.lit ((104.5 : ℝ) * DEG_TO_RAD)) ∧
    getVar (fun _ => (3 : ℝ)) (.var "-q") = -3 := by
  have hpy : pyFloat "104.5" = some (104.5 : ℝ) := by
    rw [show pyFloat "104.5" = some ((1:ℝ) * ((digitsVal ['1','0','4'] : ℝ)
        + (digitsVal ['5'] : ℝ) / (10:ℝ) ^ (['5'] : List Char).length)) from rfl,
      show digitsVal ['1','0','4'] = 104 from rfl,
      show digitsVal ['5'] = 5 from rfl]
    norm_num
  refine ⟨by decide, process_amended.1 "q" true (by decide), by decide, ?_, ?_⟩
  · have := (process_amended.2.1 "104.5" (104.5 : ℝ) (by decide) hpy).1
    exact this
  · have h := process_amended.2.2.1 (fun _ => (3 : ℝ)) ['q']
    simpa using h
/-- C8: whenever some atom-spec line references a variable name that the
variable-assignment section does not define, `ZMatrix.__init__` raises its
completeness error ("Variable '...' not given in z-matrix", line 277; the
spec's CompletenessError) instead of constructing the z-matrix. -/
theorem completeness_error (atoms : List ZMTAtom) (assigns : List (String × ℝ))
    (h : ∃ v ∈ (atoms.map ZMTAtom.all_vars).flatten,
      v ∉ assigns.map Prod.fst) :
    ∃ q, mkZMatrix atoms assigns = .error (.completeness q) := by
  obtain ⟨v, hv, hnot⟩ := h
  have hfind : ((atoms.map ZMTAtom.all_vars).flatten.find?
      (fun w => !(assigns.map Prod.fst).contains w)).isSome := by
    rw [List.find?_isSome]
    exact ⟨v, hv, by simpa using hnot⟩
  obtain ⟨w, hw⟩ := Option.isSome_iff_exists.mp hfind
  refine ⟨w, ?_⟩
  simp only [mkZMatrix, hw]

theorem completeness_error_witness :
    (∃ v ∈ (([ZMTAtom.first "C", .second "O" 1 (.var "q")] :
        List ZMTAtom).map ZMTAtom.all_vars).flatten,
      v ∉ ([("r", (1 : ℝ))] : List (String × ℝ)).map Prod.fst) ∧
    ∃ q, mkZMatrix [ZMTAtom.first "C", .second "O" 1 (.var "q")]
      [("r", (1 : ℝ))] = .error (.completeness q) :=
  ⟨by decide, completeness_error _ _ (by decide)⟩
/-- C6: setting a correct-length internal-coordinate vector and reading it
back returns exactly the same vector, on both the z-matrix and the
Cartesian (XYZ) coordinate systems; `get_internals` returns a copy
(`_coords.copy()`), value-identical to the stored vector. -/
theorem internals_round_trip :
    (∀ (s : ZMatrixState) (xl : List ℝ), xl.length = s._coords.length →
      (s.set_internals xl).map ZMatrixState.get_internals = some xl) ∧
    (∀ (s : XYZState) (xl : List ℝ), xl.length = s._coords.length →
      (s.set_internals xl).map XYZState.get_internals = some xl) := by
  constructor
  · intro s xl h
    simp [ZMatrixState.set_internals, ZMatrixState.get_internals, h]
  · intro s xl h
    simp [XYZState.set_internals, XYZState.get_internals, h]

theorem internals_round_trip_witness :
    ([(1 : ℝ), 2].length =
      (ZMatrixState.mk [] [] (fun _ => 0) [(0 : ℝ), 0] [])._coords.length) ∧
    ((ZMatrixState.mk [] [] (fun _ => 0) [(0 : ℝ), 0] []).set_internals
        [(1 : ℝ), 2]).map ZMatrixState.get_internals = some [(1 : ℝ), 2] :=
  ⟨by decide, internals_round_trip.1 _ [(1 : ℝ), 2] (by decide)⟩

/-- C9: before `setup_metric` has installed a metric, the module-global
`metric` is a `No_metric` instance (metric.py line 245), and both
`metric.lower` and `metric.raises` fail on it for every vector and
position: `No_metric` defines neither method (lines 219-226), the failure
the specification names UninitializedMetricError. -/
theorem uninitialized_metric_error (N n : ℕ) (vec place : Fin n → ℝ) :
    metricLower (metric N n) vec place = .error .uninitialized ∧
    metricRaises (metric N n) vec place = .error .uninitialized :=
  ⟨rfl, rfl⟩

/-- C10: `setup_metric` installs `Default(F)` whatever `F` is (metric.py
line 257): afterwards `lower`/`raises` return the vector unchanged for
every vector and place, and neither the `Metric` nor the `Metric_reduced`
variant is ever installed. -/
theorem setup_metric_default {α : Type} (F : α) (N n : ℕ)
    (vec place : Fin n → ℝ) :
    setup_metric F = (MetricClass.defaultMetric : MetricClass N n) ∧
    metricLower (setup_metric F : MetricClass N n) vec place = .ok vec ∧
    metricRaises (setup_metric F : MetricClass N n) vec place = .ok vec ∧
    (∀ G, (setup_metric F : MetricClass N n) ≠ .metricFull G) ∧
    (∀ G g, (setup_metric F : MetricClass N n) ≠ .metricReduced G g) := by
  refine ⟨rfl, rfl, rfl, ?_, ?_⟩
  · intro G
    simp [setup_metric]
  · intro G g
    simp [setup_metric]

/-- C4 (code evaluation): `CoordSys.get_forces` can never return the
internal-coordinate forces: with the external collaborator calls modelled
as succeeding, evaluation of its line 50 reads `self.internals`, an
attribute never assigned by any code path, and raises AttributeError; its
helper `get_transform_matrix` would equally raise NameError on the
unimported module name `numerical` (line 84). -/
theorem get_forces_raises (b : Bool) :
    get_forces b = .error (.attributeError "internals") ∧
    get_transform_matrix = .error (.nameError "numerical") :=
  ⟨rfl, rfl⟩
theorem isUnit_gram_of_rank {m n : ℕ} (B : Matrix (Fin m) (Fin n) ℝ)
    (h : B.rank = n) : IsUnit (Bᵀ * B) := by
  have hker : LinearMap.ker B.mulVecLin = ⊥ := by
    have h1 := LinearMap.finrank_range_add_finrank_ker B.mulVecLin
    rw [Module.finrank_fin_fun] at h1
    have h2 : Module.finrank ℝ (LinearMap.range B.mulVecLin) = n := h
    have h3 : Module.finrank ℝ (LinearMap.ker B.mulVecLin) = 0 := by omega
    exact Submodule.finrank_eq_zero.mp h3
  have hker2 : LinearMap.ker (Bᵀ * B).mulVecLin = ⊥ := by
    rw [Matrix.ker_mulVecLin_transpose_mul_self]
    exact hker
  have hinj : Function.Injective (Bᵀ * B).mulVec :=
    LinearMap.ker_eq_bot.mp hker2
  exact Matrix.mulVec_injective_iff_isUnit.mp hinj
/-- C2: at a position where the (reshaped) Jacobian B has full column
rank, `Metric.lower` computes Bᵀ(Bv), `Metric.raises` solves the linear
system (BᵀB)u = w (as numpy.linalg.solve does), and the round trip
raises(lower(v)) recovers v, so every component of v - raises(lower(v,x),x)
is below 1e-10 in magnitude. -/
theorem metric_lower_raises_solve {P : Type} {m n : ℕ}
    (F : P → Matrix (Fin m) (Fin n) ℝ) (x : P) (hrank : (F x).rank = n) :
    (∀ v, Metric.lower F v x = (F x)ᵀ.mulVec ((F x).mulVec v)) ∧
    (∀ w, ((F x)ᵀ * (F x)).mulVec (Metric.raises F w x) = w) ∧
    (∀ (v : Fin n → ℝ) (i : Fin n),
      |v i - Metric.raises F (Metric.lower F v x) x i| < 1e-10) := by
  have hdet : IsUnit ((F x)ᵀ * (F x)).det :=
    ((F x)ᵀ * (F x)).isUnit_iff_isUnit_det.mp (isUnit_gram_of_rank (F x) hrank)
  have hraise : ∀ w, Metric.raises F w x = ((F x)ᵀ * (F x))⁻¹.mulVec w :=
    fun w => rfl
  refine ⟨fun v => rfl, ?_, ?_⟩
  · intro w
    rw [hraise, Matrix.mulVec_mulVec, Matrix.mul_nonsing_inv _ hdet,
      Matrix.one_mulVec]
  · intro v i
    have hlow : Metric.lower F v x = ((F x)ᵀ * (F x)).mulVec v := by
      show (F x)ᵀ.mulVec ((F x).mulVec v) = _
      rw [Matrix.mulVec_mulVec]
    have hrt : Metric.raises F (Metric.lower F v x) x = v := by
      rw [hraise, hlow, Matrix.mulVec_mulVec, Matrix.nonsing_inv_mul _ hdet,
        Matrix.one_mulVec]
    rw [hrt]
    norm_num

theorem metric_lower_raises_solve_witness :
    ((1 : Matrix (Fin 1) (Fin 1) ℝ).rank = 1) ∧
    |(fun _ : Fin 1 => (5 : ℝ)) 0 -
      Metric.raises (fun _ : Unit => (1 : Matrix (Fin 1) (Fin 1) ℝ))
        (Metric.lower (fun _ : Unit => (1 : Matrix (Fin 1) (Fin 1) ℝ))
          (fun _ => 5) ()) () 0| < 1e-10 :=
  ⟨by simp,
   (metric_lower_raises_solve (fun _ : Unit => (1 : Matrix (Fin 1) (Fin 1) ℝ))
      () (by simp)).2.2 (fun _ => 5) 0⟩
theorem V3.x_sum {ι : Type} (s : Finset ι) (f : ι → V3) :
    (∑ i in s, f i).x = ∑ i in s, (f i).x :=
  map_sum (AddMonoidHom.mk' (fun v : V3 => v.x) (fun _ _ => rfl)) f s

theorem V3.y_sum {ι : Type} (s : Finset ι) (f : ι → V3) :
    (∑ i in s, f i).y = ∑ i in s, (f i).y :=
  map_sum (AddMonoidHom.mk' (fun v : V3 => v.y) (fun _ _ => rfl)) f s

theorem V3.z_sum {ι : Type} (s : Finset ι) (f : ι → V3) :
    (∑ i in s, f i).z = ∑ i in s, (f i).z :=
  map_sum (AddMonoidHom.mk' (fun v : V3 => v.z) (fun _ _ => rfl)) f s

theorem skewB_entry_sum {N : ℕ} (a b : Fin 3) (q : Fin N → V3) :
    ∑ i, skewB (q i) a b = skewB (∑ i, q i) a b := by
  fin_cases a <;> fin_cases b <;>
    simp [skewB, V3.x_sum, V3.y_sum, V3.z_sum]

theorem skewB_zero : skewB (0 : V3) = (0 : Matrix (Fin 3) (Fin 3) ℝ) := by
  ext i j
  fin_cases i <;> fin_cases j <;> simp [skewB, Matrix.vecHead, Matrix.vecTail]

theorem sum_offsets_eq_zero {N : ℕ} (hN : 1 ≤ N) (carts : Fin N → V3) :
    ∑ i, (carts i - centroid carts) = 0 := by
  rw [Finset.sum_sub_distrib]
  have h1 : ∑ _i : Fin N, centroid carts = N • centroid carts := by
    rw [Finset.sum_const, Finset.card_univ, Fintype.card_fin]
  rw [h1, centroid, ← Nat.cast_smul_eq_nsmul ℝ, smul_smul]
  have hNne : (N : ℝ) ≠ 0 := by
    have : (0 : ℝ) < N := by exact_mod_cast hN
    exact ne_of_gt this
  rw [show (N : ℝ) * (1 / (N : ℝ)) = 1 from by field_simp, one_smul, sub_self]
/-- C5: for every geometry of N >= 1 atoms, the translation basis B_T and
rotation basis B_R returned by B_globals are mutually orthogonal: every
entry of B_Tᵀ B_R vanishes (it is a skew generator of the summed offsets
from the geometric centroid, which are zero), in particular its magnitude
is below 1e-10. -/
theorem b_globals_orthogonal {N : ℕ} (carts : Fin N → V3) (hN : 1 ≤ N)
    (a b : Fin 3) :
    |((B_globals carts).1ᵀ * (B_globals carts).2.2.1) a b| < 1e-10 := by
  have h1 : (B_globals carts).1 = B_T N := rfl
  have h2 : (B_globals carts).2.2.1 = B_R carts := rfl
  rw [h1, h2]
  have hentry : ((B_T N)ᵀ * B_R carts) a b =
      ∑ i : Fin N, ∑ k : Fin 3,
        (if k = a then (1 : ℝ) else 0) * skewB (carts i - centroid carts) k b := by
    rw [Matrix.mul_apply, Fintype.sum_prod_type]
    rfl
  rw [hentry]
  have hinner : ∀ i : Fin N, ∑ k : Fin 3,
      (if k = a then (1 : ℝ) else 0) * skewB (carts i - centroid carts) k b =
      skewB (carts i - centroid carts) a b := by
    intro i
    rw [Finset.sum_eq_single a]
    · rw [if_pos rfl, one_mul]
    · intro k _ hk
      rw [if_neg hk, zero_mul]
    · intro h
      exact absurd (Finset.mem_univ a) h
  rw [Finset.sum_congr rfl (fun i _ => hinner i), skewB_entry_sum,
    sum_offsets_eq_zero hN, skewB_zero]
  simp only [Matrix.zero_apply, abs_zero]
  norm_num

theorem b_globals_orthogonal_witness :
    1 ≤ 1 ∧
    |((B_globals (fun _ : Fin 1 => (0 : V3))).1ᵀ *
        (B_globals (fun _ : Fin 1 => (0 : V3))).2.2.1) 0 0| < 1e-10 :=
  ⟨le_refl 1, b_globals_orthogonal (fun _ : Fin 1 => (0 : V3)) (le_refl 1) 0 0⟩
